import Mathlib

/-!
Verification of the two core components of this repository against its
natural-language specification:

* `shopify/api_access.py` — the authorization-scope algebra (`ApiAccess`,
  called `ScopeSet` in the spec);
* `shopify/collection.py` — cursor-based pagination (`PaginatedCollection`,
  called `PagedSequence` in the spec, and `PaginatedIterator`, called
  `PageIterator`).

Python strings are modelled as `List Char` (`Str`), Python `frozenset` as
`Finset`, `None` as `Option.none`, raised exceptions as `Except`.
-/

set_option maxRecDepth 4000

deriving instance DecidableEq for Except

/-- Python strings, modelled as lists of characters. -/
abbrev Str := List Char

/-! ## Python string primitives used by the source

`str.strip()`, `str.split(sep)` / `sep.join(...)` restricted to the
single-character delimiter `","` used by `ApiAccess`. -/

/-- Remove trailing characters satisfying `Char.isWhitespace`
(the tail half of Python's `str.strip()`). -/
def pyRStrip : Str → Str
  | [] => []
  | c :: rest =>
    match pyRStrip rest with
    | [] => if c.isWhitespace then [] else [c]
    | r => c :: r

/-- Python's `str.strip()`: drop leading and trailing whitespace. -/
def pyStrip (s : Str) : Str :=
  pyRStrip (s.dropWhile Char.isWhitespace)

/-- Python's `str.split(sep)` for a one-character separator: splits at every
occurrence, keeping empty fragments (`"".split(",") == [""]`). -/
def pySplit (sep : Char) : Str → List Str
  | [] => [[]]
  | c :: rest =>
    match pySplit sep rest with
    | [] => [[]]
    | h :: t => if c = sep then [] :: h :: t else (c :: h) :: t

/-- Python's `sep.join(parts)` for a one-character separator. -/
def pyJoin (sep : Char) : List Str → Str
  | [] => []
  | [a] => a
  | a :: b :: t => a ++ sep :: pyJoin sep (b :: t)

/-! ## `shopify/api_access.py` -/

namespace ApiAccessModel

/-- Full-anchored match of
`SCOPE_RE = \A(?P<unauthenticated>unauthenticated_)?(write|read)_(?P<resource>.*)\Z`.
The optional group is forced exactly when the scope starts with
`unauthenticated_` (no other backtracking can succeed, since the following
alternation would otherwise have to match at `unauthenticated_`'s `u`). -/
def scopeValid (s : Str) : Bool :=
  let rest := if "unauthenticated_".toList.isPrefixOf s then s.drop 16 else s
  "write_".toList.isPrefixOf rest || "read_".toList.isPrefixOf rest

/-- `ApiAccess._get_implied_scope`: match against
`IMPLIED_SCOPE_RE = \A(?P<unauthenticated>unauthenticated_)?write_(?P<resource>.*)\Z`
and, on success, rebuild `f"{unauthenticated or ''}read_{resource}"`. -/
def impliedScope (s : Str) : Option Str :=
  let (pre, rest) :=
    if "unauthenticated_".toList.isPrefixOf s then ("unauthenticated_".toList, s.drop 16)
    else (([] : Str), s)
  if "write_".toList.isPrefixOf rest then
    some (pre ++ "read_".toList ++ rest.drop 6)
  else
    none

/-- The state stored by `ApiAccess._store_scopes`: `_compressed_scopes` is a
`frozenset` of scope strings, `_expanded_scopes` is
`sanitized_scopes.union(implied_scopes)` where `implied_scopes` may contain
Python's `None` (hence `Option Str` elements). -/
structure ApiAccess where
  compressedScopes : Finset Str
  expandedScopes : Finset (Option Str)
  deriving DecidableEq

/-- The sanitized input of `_store_scopes`, as a duplicate-free list:
`frozenset(filter(None, (scope.strip() for scope in scopes)))`. -/
def sanitizedList (scopes : List Str) : List Str :=
  ((scopes.map pyStrip).filter (fun s => !s.isEmpty)).dedup

/-- `ApiAccess._store_scopes` (including the `_validate_scopes` call): returns
the constructed object, or the offending scope named by the
`ApiAccessError`.  Validation is all-or-nothing. -/
def storeScopes (scopes : List Str) : Except Str ApiAccess :=
  let sanitized := sanitizedList scopes
  match sanitized.find? (fun s => !scopeValid s) with
  | some bad => .error bad
  | none =>
    let sanitizedSet : Finset Str := sanitized.toFinset
    let implied : Finset (Option Str) := sanitizedSet.image impliedScope
    .ok
      { compressedScopes := sanitizedSet.filter (fun s => some s ∉ implied)
        expandedScopes := sanitizedSet.image some ∪ implied }

/-- `ApiAccess.__init__` on a collection (non-string) argument. -/
def apiAccessOfList (scopes : List Str) : Except Str ApiAccess :=
  storeScopes scopes

/-- `ApiAccess.__init__` on a single string argument:
`scopes.split(SCOPE_DELIMITER)` first. -/
def apiAccessOfString (s : Str) : Except Str ApiAccess :=
  storeScopes (pySplit ',' s)

/-- `ApiAccess.covers`: `api_access._compressed_scopes <= self._expanded_scopes`
(Python subset test between a `frozenset[str]` and a `frozenset[str | None]`). -/
def covers (a b : ApiAccess) : Bool :=
  decide (b.compressedScopes.image some ⊆ a.expandedScopes)

/-- `ApiAccess.__str__` joins `_compressed_scopes` with `","`; the `frozenset`
iteration order is unspecified, so the enumeration is a parameter. -/
def apiAccessStr (enum : List Str) : Str :=
  pyJoin ',' enum

/-- A list enumerating a `frozenset` in some (unspecified) iteration order. -/
def Enumerates (enum : List Str) (s : Finset Str) : Prop :=
  enum.Nodup ∧ enum.toFinset = s

/-- `ApiAccess.__eq__`: equality of the `_compressed_scopes` frozensets. -/
def apiAccessEq (a b : ApiAccess) : Bool :=
  decide (a.compressedScopes = b.compressedScopes)

end ApiAccessModel

/-! ## `shopify/collection.py`

Object identity matters for `PaginatedCollection` (navigation mutates the
`_next` / `_previous` / `_current_iter` / `_no_iter_next` attributes), so the
heap of collection objects is modelled explicitly: a `World` is the list of
all `PaginatedCollection` objects created so far, addressed by `PageId`, and
every operation threads the world.  `resource_class.find(from_=url)` — the
external fetch collaborator — is modelled as a pure function `F : Url →
PageSpec` giving the item list and pagination links of the page served at a
URL; each call allocates a fresh object. -/

namespace CollectionModel

abbrev Url := Str
abbrev Item := Nat
abbrev PageId := Nat

/-- What the external fetch collaborator serves for one URL: the items and
the pagination links of the returned page (the result of
`PaginatedCollection.__init__` on the HTTP response). -/
structure PageSpec where
  items : List Item
  nextPageUrl : Option Url
  previousPageUrl : Option Url
  deriving DecidableEq

/-- The mutable state of one `PaginatedCollection` object:
its items, `next_page_url` / `previous_page_url`, the adjacency caches
`_next` / `_previous` (references to other objects, `None` until populated),
`_current_iter`, and `_no_iter_next`. -/
structure PageData where
  items : List Item
  nextPageUrl : Option Url
  previousPageUrl : Option Url
  next : Option PageId
  previous : Option PageId
  currentIter : Option PageId
  noIterNext : Bool
  deriving DecidableEq, Inhabited

/-- The heap of `PaginatedCollection` objects created so far. -/
structure World where
  pages : List PageData
  deriving DecidableEq

/-- Dereference an object id. -/
def World.page (w : World) (i : PageId) : PageData :=
  w.pages.getD i default

/-- Overwrite the object at id `i`. -/
def World.setPage (w : World) (i : PageId) (p : PageData) : World :=
  ⟨w.pages.set i p⟩

/-- `has_next_page`: `bool(self.next_page_url)` — false for `None` and for
the empty string. -/
def hasNextPage (p : PageData) : Bool :=
  match p.nextPageUrl with
  | none => false
  | some u => !u.isEmpty

/-- `has_previous_page`: `bool(self.previous_page_url)`. -/
def hasPreviousPage (p : PageData) : Bool :=
  match p.previousPageUrl with
  | none => false
  | some u => !u.isEmpty

/-- `PaginatedCollection._fetch_page(url, no_cache)`:
`resource_class.find(from_=url)` allocates a fresh page (a fresh
`PaginatedCollection`, whose `_next`/`_previous`/`_current_iter` start as
`None` and whose `_no_iter_next` starts at the constructor default `True`);
then `if not no_cache: self._next = next_page; self._next._previous = self`;
then `next_page._no_iter_next = self._no_iter_next`.  Returns the updated
heap and the id of the new page. -/
def fetchPage (F : Url → PageSpec) (w : World) (selfId : PageId) (url : Url)
    (noCache : Bool) : World × PageId :=
  let spec := F url
  let newId := w.pages.length
  let fresh : PageData :=
    { items := spec.items, nextPageUrl := spec.nextPageUrl
      previousPageUrl := spec.previousPageUrl
      next := none, previous := none, currentIter := none, noIterNext := true }
  let w₁ : World := ⟨w.pages ++ [fresh]⟩
  let w₂ :=
    if noCache then w₁
    else
      let w' := w₁.setPage selfId { w₁.page selfId with next := some newId }
      w'.setPage newId { w'.page newId with previous := some selfId }
  let w₃ := w₂.setPage newId { w₂.page newId with noIterNext := (w₂.page selfId).noIterNext }
  (w₃, newId)

/-- `PaginatedCollection.__len__`:
`count = len(self._next) if self._next else 0; return count + super().__len__()`.
The truthiness of `self._next` (a `pyactiveresource` `Collection`, a `list`
subclass with `__len__` and no `__bool__`) is itself `len(self._next) != 0`,
so `__len__` recurses along the `_next` chain.  Fuel bounds that recursion:
in every heap this model can produce, a `_next` reference always points to a
strictly fresher page (`_fetch_page` stores the page it has just allocated),
so chains are acyclic and a fuel of one more than the heap size computes the
same value CPython does; only on an unreachable cyclic heap — where CPython's
`__len__` would never return — does the fuel run out, contributing 0. -/
def lenChainFuel (w : World) : Nat → PageId → Nat
  | 0, _ => 0
  | fuel + 1, i =>
    let count :=
      match (w.page i).next with
      | none => 0
      | some j =>
        let n := lenChainFuel w fuel j
        if 0 < n then n else 0
    count + (w.page i).items.length

/-- `len(...)` of the collection object `i`, with enough fuel for any
acyclic `_next` chain in the heap. -/
def pageLen (w : World) (i : PageId) : Nat :=
  lenChainFuel w (w.pages.length + 1) i

/-- The cache tests `if self._next:` / `if self._previous:`: the cached
reference is followed only when it is present AND truthy.
`PaginatedCollection` subclasses `list`, so its truthiness is
`__len__() != 0` — an empty cached page is skipped exactly like an absent
one. -/
def truthyRef (w : World) (r : Option PageId) : Option PageId :=
  match r with
  | some p => if 0 < pageLen w p then some p else none
  | none => none

/-- `PaginatedCollection.next_page(no_cache)`: return the cached `_next`
object if one is present and truthy (`if self._next:` — list truthiness),
else raise `IndexError("No next page")` if there is no next link, else
fetch.  The `IndexError` is the `Except` error. -/
def nextPage (F : Url → PageSpec) (w : World) (selfId : PageId)
    (noCache : Bool) : Except Unit (World × PageId) :=
  match truthyRef w (w.page selfId).next with
  | some p => .ok (w, p)
  | none =>
    if hasNextPage (w.page selfId) then
      .ok (fetchPage F w selfId ((w.page selfId).nextPageUrl.getD []) noCache)
    else
      .error ()

/-- `PaginatedCollection.previous_page(no_cache)`: return the cached
`_previous` object if present and truthy (`if self._previous:` — list
truthiness), else raise `IndexError("No previous page")` if there is no
previous link, else fetch (note: the source's `_fetch_page` is the same
one used by `next_page`). -/
def previousPage (F : Url → PageSpec) (w : World) (selfId : PageId)
    (noCache : Bool) : Except Unit (World × PageId) :=
  match truthyRef w (w.page selfId).previous with
  | some p => .ok (w, p)
  | none =>
    if hasPreviousPage (w.page selfId) then
      .ok (fetchPage F w selfId ((w.page selfId).previousPageUrl.getD []) noCache)
    else
      .error ()

/-- Full run of `PaginatedCollection.__iter__` (item-level iteration):
yields the page's own items; stops there if `_no_iter_next` is set;
otherwise sets `_current_iter` (to `self` first if unset, then to
`self.next_page()`) and recurses into the next page's iteration, with the
`IndexError` of an absent next page caught and swallowed.  Fuel bounds the
recursion; `none` means the fuel ran out. -/
def iterItems (F : Url → PageSpec) : Nat → World → PageId → Option (List Item × World)
  | 0, _, _ => none
  | fuel + 1, w, selfId =>
    let s := w.page selfId
    if s.noIterNext then some (s.items, w)
    else
      let w₁ :=
        if s.currentIter = none then w.setPage selfId { s with currentIter := some selfId }
        else w
      match nextPage F w₁ selfId false with
      | .error _ => some (s.items, w₁)
      | .ok (w₂, p) =>
        let w₃ := w₂.setPage selfId { w₂.page selfId with currentIter := some p }
        match iterItems F fuel w₃ p with
        | none => none
        | some (rest, w₄) => some (s.items ++ rest, w₄)

/-- `PaginatedIterator.__init__`: forces `collection._no_iter_next = True`
on the wrapped starting page. -/
def paginatedIteratorInit (w : World) (i : PageId) : World :=
  w.setPage i { w.page i with noIterNext := true }

/-- Full run of `PaginatedIterator.__iter__`: yield the current page, then
`current_page = current_page.next_page(no_cache=True)` until the
`IndexError` is raised, which is swallowed.  Returns the list of yielded
page ids; fuel bounds the loop. -/
def iterPages (F : Url → PageSpec) : Nat → World → PageId → Option (List PageId × World)
  | 0, _, _ => none
  | fuel + 1, w, cur =>
    match nextPage F w cur true with
    | .error _ => some ([cur], w)
    | .ok (w', nxt) =>
      match iterPages F fuel w' nxt with
      | none => none
      | some (rest, w'') => some (cur :: rest, w'')

/-! ### `PaginatedCollection.__init__` / `_parse_pagination` -/

/-- Python's `s[1:-1]`. -/
def pySlice1m1 (s : Str) : Str :=
  (s.drop 1).dropLast

/-- Python's `str.split(sep)` for the two-character separators `", "` and
`"; "` used by `_parse_pagination`: split at every occurrence of `a`
followed by `b`, scanning left to right. -/
def pySplit2 (a b : Char) : Str → List Str
  | [] => [[]]
  | [c] => [[c]]
  | c :: d :: rest =>
    if c = a ∧ d = b then
      [] :: pySplit2 a b rest
    else
      match pySplit2 a b (d :: rest) with
      | [] => [[]]
      | h :: t => (c :: h) :: t

/-- `dict.get`: look up a key in a mapping (keys are unique). -/
def dictGet (d : List (Str × Str)) (k : Str) : Option Str :=
  (d.find? (fun p => p.1 = k)).map (·.2)

/-- `dict.__setitem__`: overwrite the key if present, else append. -/
def dictSet (d : List (Str × Str)) (k v : Str) : List (Str × Str) :=
  if d.any (fun p => p.1 = k) then
    d.map (fun p => if p.1 = k then (k, v) else p)
  else
    d ++ [(k, v)]

/-- One loop iteration of `_parse_pagination`:
`link, rel = value.split("; ")` (a `ValueError` if the split is not exactly
two parts), then key `rel.split('"')[1]` (an `IndexError` if out of range)
and value `link[1:-1]`. -/
def parseLinkValue (value : Str) : Except Unit (Str × Str) :=
  match pySplit2 ';' ' ' value with
  | [link, rel] =>
    match pySplit '"' rel with
    | _ :: second :: _ => .ok (second, pySlice1m1 link)
    | _ => .error ()
  | _ => .error ()

/-- The `for value in link_header.split(", ")` loop of `_parse_pagination`,
building the `result` dict. -/
def parseLinks (values : List Str) (acc : List (Str × Str)) :
    Except Unit (List (Str × Str)) :=
  match values with
  | [] => .ok acc
  | value :: rest =>
    match parseLinkValue value with
    | .error e => .error e
    | .ok (k, v) => parseLinks rest (dictSet acc k v)

/-- `PaginatedCollection._parse_pagination`:
`link_header = headers.get("Link") or headers.get("link")` (Python `or`
falls through on `None` and on the empty string); an absent or empty header
yields the empty dict; otherwise the header value is parsed. -/
def paginationOfHeaders (headers : List (Str × Str)) : Except Unit (List (Str × Str)) :=
  let a := dictGet headers "Link".toList
  let lh :=
    match a with
    | some v => if v.isEmpty then dictGet headers "link".toList else some v
    | none => dictGet headers "link".toList
  match lh with
  | none => .ok []
  | some v =>
    if v.isEmpty then .ok []
    else parseLinks (pySplit2 ',' ' ' v) []

/-- The pagination-relevant part of `PaginatedCollection.__init__`: parse
the headers, store `next_page_url = pagination.get("next")` and
`previous_page_url = pagination.get("previous")`, initialize the caches to
`None` and `_no_iter_next = kwargs.pop("no_iter_next", True)` (the `kwargs`
entry is modelled as an `Option Bool`). -/
def initCollection (items : List Item) (headers : List (Str × Str))
    (noIterNextKw : Option Bool) : Except Unit PageData :=
  match paginationOfHeaders headers with
  | .error e => .error e
  | .ok pagination =>
    .ok
      { items
        nextPageUrl := dictGet pagination "next".toList
        previousPageUrl := dictGet pagination "previous".toList
        next := none, previous := none, currentIter := none
        noIterNext := noIterNextKw.getD true }

end CollectionModel

/-! ## The scope pattern of the specification

The spec requires scopes to match `^(unauthenticated_)?(write|read)_(.+)$`
— with a non-empty resource suffix (`.+`), unlike the source's `SCOPE_RE`,
which uses `(.*)`.  The definition below follows the spec's words, for
comparison with `scopeValid` (which follows the source). -/

namespace ApiAccessModel

/-- The spec's scope pattern `^(unauthenticated_)?(write|read)_(.+)$`:
like `scopeValid`, but the resource suffix must be non-empty. -/
def specScopeValid (s : Str) : Bool :=
  let rest := if "unauthenticated_".toList.isPrefixOf s then s.drop 16 else s
  ("write_".toList.isPrefixOf rest && !(rest.drop 6).isEmpty)
    || ("read_".toList.isPrefixOf rest && !(rest.drop 5).isEmpty)

end ApiAccessModel

/-! ## Claims about `ApiAccess` (the spec's `ScopeSet`) -/

open ApiAccessModel

/-- C1: for validly constructed scope sets, `covers` is exactly the test
that the other set's compressed scopes are contained in this set's expanded
scopes; in particular `ApiAccess("write_orders")` covers
`ApiAccess("read_orders")` and the converse `covers` call returns false. -/
theorem C1_covers_subset (a b : ApiAccess) (sa sb : List Str)
    (_ : apiAccessOfList sa = .ok a) (_ : apiAccessOfList sb = .ok b) :
    (covers a b = true ↔ ∀ s ∈ b.compressedScopes, some s ∈ a.expandedScopes) ∧
    ((apiAccessOfString "write_orders".toList).toOption.bind
        (fun wA => (apiAccessOfString "read_orders".toList).toOption.map
          (fun rB => (covers wA rB, covers rB wA))) = some (true, false)) := by
  constructor
  · simp [covers, Finset.image_subset_iff]
  · decide

/-- Witness for C1 at a concrete input: a set covers itself. -/
theorem C1_covers_subset_witness :
    covers ⟨{"write_orders".toList}, {some "write_orders".toList, some "read_orders".toList}⟩
        ⟨{"write_orders".toList}, {some "write_orders".toList, some "read_orders".toList}⟩
      = true :=
  (C1_covers_subset _ _ ["write_orders".toList] ["write_orders".toList]
      (by decide) (by decide)).1.mpr (by decide)

/-- C2 counterexample: the claim says `expanded` contains only scope
strings, but `ApiAccess(["read_orders"])._expanded_scopes` contains
Python's `None`: `_store_scopes` unions the sanitized scopes with
`frozenset(self._get_implied_scope(scope) for scope in sanitized_scopes)`,
and `_get_implied_scope` returns `None` for every non-write scope. -/
theorem C2_none_in_expanded :
    ((apiAccessOfList ["read_orders".toList]).toOption.map
        (fun a => decide (none ∈ a.expandedScopes))) = some true := by
  decide

/-- C2 as amended: the string elements of `expanded` are exactly
`compressed ∪ { implied read-scope of every write-scope present }`, every
`write_X` input contributes a `read_X` that is in `expanded` and not in
`compressed`, but `expanded` additionally contains the non-string element
`None` exactly when some sanitized scope is not a write scope. -/
theorem C2_expanded_structure (scopes : List Str) (a : ApiAccess)
    (h : apiAccessOfList scopes = .ok a) :
    a.expandedScopes
        = a.compressedScopes.image some
            ∪ ((sanitizedList scopes).toFinset.image impliedScope) ∧
    (∀ s ∈ sanitizedList scopes, ∀ r, impliedScope s = some r →
        some r ∈ a.expandedScopes ∧ r ∉ a.compressedScopes) ∧
    (none ∈ a.expandedScopes ↔ ∃ s ∈ sanitizedList scopes, impliedScope s = none) := by
  cases hf : (sanitizedList scopes).find? (fun s => !scopeValid s) with
  | some bad =>
    simp only [apiAccessOfList, storeScopes, hf] at h
    exact absurd h (by simp)
  | none =>
    simp only [apiAccessOfList, storeScopes, hf] at h
    set T : Finset Str := (sanitizedList scopes).toFinset with hT
    have ha : (⟨T.filter (fun s => some s ∉ T.image impliedScope),
        T.image some ∪ T.image impliedScope⟩ : ApiAccess) = a := by
      simpa using h
    subst ha
    refine ⟨?_, ?_, ?_⟩
    · ext x
      simp only [Finset.mem_union, Finset.mem_image, Finset.mem_filter]
      constructor
      · rintro (⟨s, hs, rfl⟩ | hI)
        · by_cases hmem : some s ∈ T.image impliedScope
          · right
            simpa [Finset.mem_image] using hmem
          · left
            exact ⟨s, ⟨hs, by simpa [Finset.mem_image] using hmem⟩, rfl⟩
        · right; exact hI
      · rintro (⟨s, ⟨hs, _⟩, rfl⟩ | hI)
        · left; exact ⟨s, hs, rfl⟩
        · right; exact hI
    · intro s hs r hr
      have hsT : s ∈ T := by simpa [hT] using List.mem_toFinset.mpr hs
      have hrI : some r ∈ T.image impliedScope :=
        Finset.mem_image.mpr ⟨s, hsT, hr⟩
      refine ⟨Finset.mem_union_right _ hrI, ?_⟩
      intro hrC
      exact absurd hrI (Finset.mem_filter.mp hrC).2
    · constructor
      · intro hn
        rcases Finset.mem_union.mp hn with hn | hn
        · rcases Finset.mem_image.mp hn with ⟨s, _, hs⟩
          exact absurd hs (by simp)
        · rcases Finset.mem_image.mp hn with ⟨s, hsT, hs⟩
          exact ⟨s, List.mem_toFinset.mp (by simpa [hT] using hsT), hs⟩
      · rintro ⟨s, hs, hnone⟩
        exact Finset.mem_union_right _
          (Finset.mem_image.mpr ⟨s, by simpa [hT] using List.mem_toFinset.mpr hs, hnone⟩)

/-- Witness for C2 as amended: `ApiAccess(["write_orders"])` puts
`read_orders` in `expanded` and keeps it out of `compressed`. -/
theorem C2_expanded_structure_witness :
    some "read_orders".toList
        ∈ (⟨{"write_orders".toList},
            {some "write_orders".toList, some "read_orders".toList}⟩ : ApiAccess).expandedScopes ∧
    "read_orders".toList
        ∉ (⟨{"write_orders".toList},
            {some "write_orders".toList, some "read_orders".toList}⟩ : ApiAccess).compressedScopes :=
  (C2_expanded_structure ["write_orders".toList] _ (by decide)).2.1
    "write_orders".toList (by decide) "read_orders".toList (by decide)

/-- C3 counterexample: the claim requires a non-empty resource suffix
(the spec pattern uses `.+`), but the source's `SCOPE_RE` uses `(.*)`:
`ApiAccess(["write_"])` is accepted even though `"write_"` fails the
claimed pattern. -/
theorem C3_empty_resource_accepted :
    specScopeValid "write_".toList = false ∧
    (apiAccessOfList ["write_".toList]).toOption.isSome = true := by
  decide

/-- C3 as amended: construction succeeds exactly when every sanitized entry
matches the source pattern `^(unauthenticated_)?(write|read)_(.*)$`
(the resource suffix may be empty); on failure the raised `ApiAccessError`
names an offending (invalid, sanitized) entry and no object is produced. -/
theorem C3_validation (scopes : List Str) :
    ((apiAccessOfList scopes).toOption.isSome = true ↔
      ∀ s ∈ sanitizedList scopes, scopeValid s = true) ∧
    (∀ e, apiAccessOfList scopes = .error e →
      scopeValid e = false ∧ e ∈ sanitizedList scopes) := by
  cases hf : (sanitizedList scopes).find? (fun s => !scopeValid s) with
  | some bad =>
    have hbad : scopeValid bad = false := by
      have := List.find?_some hf
      simpa using this
    have hmem : bad ∈ sanitizedList scopes := List.mem_of_find?_eq_some hf
    constructor
    · simp only [apiAccessOfList, storeScopes, hf]
      constructor
      · intro h; simp [Except.toOption] at h
      · intro hall
        exact absurd (hall bad hmem) (by simp [hbad])
    · intro e he
      simp only [apiAccessOfList, storeScopes, hf] at he
      have : bad = e := by simpa using he
      subst this
      exact ⟨hbad, hmem⟩
  | none =>
    constructor
    · simp only [apiAccessOfList, storeScopes, hf]
      constructor
      · intro _ s hs
        have := List.find?_eq_none.mp hf s hs
        simpa using this
      · intro _
        simp [Except.toOption]
    · intro e he
      simp only [apiAccessOfList, storeScopes, hf] at he
      exact absurd he (by simp)

/-- Witness for C3 as amended: a valid scope list is accepted. -/
theorem C3_validation_witness :
    (apiAccessOfList ["write_orders".toList]).toOption.isSome = true :=
  (C3_validation ["write_orders".toList]).1.mpr (by decide)

/-! ## Split / join / strip lemmas for the round-trip claim -/

namespace ApiAccessModel

theorem pySplit_ne_nil (sep : Char) : ∀ s : Str, pySplit sep s ≠ []
  | [] => by simp [pySplit]
  | c :: rest => by
    simp only [pySplit]
    cases h : pySplit sep rest with
    | nil => simp
    | cons x t => by_cases hc : c = sep <;> simp [hc]

theorem pySplit_no_sep (sep : Char) (a : Str) (h : sep ∉ a) : pySplit sep a = [a] := by
  induction a with
  | nil => rfl
  | cons c rest ih =>
    have hc : ¬c = sep := by rintro rfl; exact h (.head _)
    have h' : sep ∉ rest := fun hm => h (.tail _ hm)
    simp [pySplit, ih h', hc]

theorem pySplit_append (sep : Char) (a r : Str) (h : sep ∉ a) :
    pySplit sep (a ++ sep :: r) = a :: pySplit sep r := by
  induction a with
  | nil =>
    simp only [List.nil_append, pySplit]
    cases hr : pySplit sep r with
    | nil => exact absurd hr (pySplit_ne_nil sep r)
    | cons x t => simp
  | cons c rest ih =>
    have hc : ¬c = sep := by rintro rfl; exact h (.head _)
    have h' : sep ∉ rest := fun hm => h (.tail _ hm)
    rw [List.cons_append]
    simp only [pySplit]
    rw [ih h']
    simp [hc]

/-- Splitting a join undoes it when no fragment contains the separator. -/
theorem pySplit_pyJoin (sep : Char) :
    ∀ l : List Str, (∀ a ∈ l, sep ∉ a) → l ≠ [] → pySplit sep (pyJoin sep l) = l
  | [], _, hne => absurd rfl hne
  | [a], h, _ => by simp [pyJoin, pySplit_no_sep sep a (h a (by simp))]
  | a :: b :: t, h, _ => by
    have ha : sep ∉ a := h a (by simp)
    simp only [pyJoin]
    rw [pySplit_append sep a _ ha,
      pySplit_pyJoin sep (b :: t) (fun x hx => h x (by simp [hx])) (by simp)]

theorem dropWhile_dropWhile (p : Char → Bool) (l : Str) :
    (l.dropWhile p).dropWhile p = l.dropWhile p := by
  induction l with
  | nil => rfl
  | cons c rest ih =>
    by_cases hc : p c = true
    · simp [List.dropWhile_cons, hc, ih]
    · simp [List.dropWhile_cons, hc]

/-- One-step unfolding of `pyRStrip` on a cons cell. -/
theorem pyRStrip_cons (c : Char) (l : Str) :
    pyRStrip (c :: l)
      = match pyRStrip l with
        | [] => if c.isWhitespace then [] else [c]
        | r => c :: r := rfl

theorem pyRStrip_idem : ∀ s : Str, pyRStrip (pyRStrip s) = pyRStrip s
  | [] => rfl
  | c :: rest => by
    have ih := pyRStrip_idem rest
    cases h : pyRStrip rest with
    | nil =>
      have hcr : pyRStrip (c :: rest) = if c.isWhitespace then [] else [c] := by
        rw [pyRStrip_cons, h]
      by_cases hc : c.isWhitespace
      · rw [hcr, if_pos hc]; rfl
      · rw [hcr, if_neg hc, pyRStrip_cons]
        simp [pyRStrip, hc]
    | cons x xs =>
      have hx : pyRStrip (x :: xs) = x :: xs := by rw [← h]; exact ih
      have hcr : pyRStrip (c :: rest) = c :: x :: xs := by
        rw [pyRStrip_cons, h]
      rw [hcr, pyRStrip_cons, hx]

theorem dropWhile_pyRStrip (s : Str) (h : s.dropWhile Char.isWhitespace = s) :
    (pyRStrip s).dropWhile Char.isWhitespace = pyRStrip s := by
  cases s with
  | nil => rfl
  | cons c rest =>
    have hc : c.isWhitespace = false := by
      by_contra hcc
      rw [Bool.not_eq_false] at hcc
      rw [List.dropWhile_cons, if_pos hcc] at h
      have hlen := (List.dropWhile_sublist (p := Char.isWhitespace) (l := rest)).length_le
      rw [h] at hlen
      simp at hlen
    cases h' : pyRStrip rest with
    | nil =>
      rw [pyRStrip_cons, h']
      simp [hc, List.dropWhile_cons]
    | cons x xs =>
      rw [pyRStrip_cons, h']
      simp [hc, List.dropWhile_cons]

/-- `strip` is idempotent. -/
theorem pyStrip_idem (s : Str) : pyStrip (pyStrip s) = pyStrip s := by
  unfold pyStrip
  rw [dropWhile_pyRStrip _ (dropWhile_dropWhile _ s), pyRStrip_idem]

/-- Every member of the sanitized input is already stripped and non-empty. -/
theorem mem_sanitizedList (scopes : List Str) (s : Str) (h : s ∈ sanitizedList scopes) :
    pyStrip s = s ∧ s ≠ [] := by
  unfold sanitizedList at h
  rw [List.mem_dedup] at h
  rcases List.mem_filter.mp h with ⟨hmap, hne⟩
  rcases List.mem_map.mp hmap with ⟨x, _, rfl⟩
  refine ⟨pyStrip_idem x, ?_⟩
  simpa [List.isEmpty_iff] using hne

theorem map_eq_self_of_mem {f : Str → Str} :
    ∀ l : List Str, (∀ a ∈ l, f a = a) → l.map f = l
  | [], _ => rfl
  | a :: t, h => by
    rw [List.map_cons, h a (by simp), map_eq_self_of_mem t (fun x hx => h x (by simp [hx]))]

end ApiAccessModel

/-- C7 counterexample: a scope may legally contain the delimiter `","`
(`SCOPE_RE`'s resource is `.*`), and then `str` / parse does not round-trip:
`ApiAccess(["write_a,read_a"])` has compressed set `{"write_a,read_a"}`, its
string form is `"write_a,read_a"`, but parsing that string yields the
compressed set `{"write_a"}` — a non-equal ScopeSet. -/
theorem C7_comma_scope_breaks_roundtrip :
    apiAccessStr ["write_a,read_a".toList] = "write_a,read_a".toList ∧
    ((apiAccessOfList ["write_a,read_a".toList]).toOption.map
        (fun S => decide (S.compressedScopes = {"write_a,read_a".toList}))) = some true ∧
    ((apiAccessOfString "write_a,read_a".toList).toOption.map
        (fun S => decide (S.compressedScopes = {"write_a".toList}))) = some true ∧
    ({"write_a,read_a".toList} : Finset Str) ≠ {"write_a".toList} := by
  refine ⟨by decide, by decide, by decide, by decide⟩

/-- C7 as amended: for every validly constructed ScopeSet none of whose
compressed scopes contains the delimiter `","`, parsing the
delimiter-joined string produced by `__str__` (in any iteration order of
the compressed frozenset) yields a ScopeSet equal to the original. -/
theorem C7_roundtrip (scopes : List Str) (S : ApiAccess) (enum : List Str)
    (h : apiAccessOfList scopes = .ok S)
    (henum : Enumerates enum S.compressedScopes)
    (hcomma : ∀ s ∈ enum, ',' ∉ s) :
    ∃ S', apiAccessOfString (apiAccessStr enum) = .ok S'
      ∧ apiAccessEq S' S = true := by
  obtain ⟨hnd, hset⟩ := henum
  cases hf : (sanitizedList scopes).find? (fun s => !scopeValid s) with
  | some bad =>
    simp only [apiAccessOfList, storeScopes, hf] at h
    exact absurd h (by simp)
  | none =>
    simp only [apiAccessOfList, storeScopes, hf] at h
    set T : Finset Str := (sanitizedList scopes).toFinset with hT
    have ha : (⟨T.filter (fun s => some s ∉ T.image impliedScope),
        T.image some ∪ T.image impliedScope⟩ : ApiAccess) = S := by
      simpa using h
    have hvalid : ∀ s ∈ sanitizedList scopes, scopeValid s = true := by
      intro s hs
      have := List.find?_eq_none.mp hf s hs
      simpa using this
    have hmem : ∀ s ∈ enum, s ∈ sanitizedList scopes ∧ some s ∉ T.image impliedScope := by
      intro s hs
      have hsC : s ∈ S.compressedScopes := hset ▸ List.mem_toFinset.mpr hs
      rw [← ha] at hsC
      have := Finset.mem_filter.mp hsC
      exact ⟨by simpa [hT] using List.mem_toFinset.mp this.1, by simpa using this.2⟩
    have hmem2 : ∀ s ∈ enum, pyStrip s = s ∧ s ≠ [] ∧ scopeValid s = true := by
      intro s hs
      obtain ⟨h1, _⟩ := hmem s hs
      obtain ⟨hstrip, hne⟩ := mem_sanitizedList scopes s h1
      exact ⟨hstrip, hne, hvalid s h1⟩
    by_cases hne : enum = []
    · subst hne
      have hcomp : S.compressedScopes = ∅ := by rw [← hset]; rfl
      refine ⟨⟨∅, ∅⟩, by decide, ?_⟩
      simp [apiAccessEq, hcomp]
    · have hsan : sanitizedList enum = enum := by
        unfold sanitizedList
        rw [map_eq_self_of_mem enum (fun a ha => (hmem2 a ha).1),
          List.filter_eq_self.mpr (fun a ha => by simp [List.isEmpty_iff, (hmem2 a ha).2.1]),
          List.dedup_eq_self.mpr hnd]
      have hfind : enum.find? (fun s => !scopeValid s) = none :=
        List.find?_eq_none.mpr (fun s hs => by simp [(hmem2 s hs).2.2])
      have hsplit : pySplit ',' (apiAccessStr enum) = enum :=
        pySplit_pyJoin ',' enum hcomma hne
      refine ⟨⟨enum.toFinset.filter (fun s => some s ∉ enum.toFinset.image impliedScope),
          enum.toFinset.image some ∪ enum.toFinset.image impliedScope⟩, ?_, ?_⟩
      · simp only [apiAccessOfString]
        rw [hsplit]
        simp only [storeScopes, hsan, hfind]
      · simp only [apiAccessEq, decide_eq_true_eq]
        rw [hset]
        apply Finset.filter_eq_self.mpr
        intro x hx hmemI
        rcases Finset.mem_image.mp hmemI with ⟨y, hy, hyx⟩
        rw [← ha] at hx hy
        have hyT : y ∈ T := (Finset.mem_filter.mp hy).1
        have hxI : some x ∈ T.image impliedScope := Finset.mem_image.mpr ⟨y, hyT, hyx⟩
        exact (Finset.mem_filter.mp hx).2 hxI

/-! ## Heap lemmas for the pagination model -/

namespace CollectionModel

theorem page_setPage_self (w : World) (i : PageId) (p : PageData) (h : i < w.pages.length) :
    (w.setPage i p).page i = p := by
  simp [World.page, World.setPage, List.getD_eq_getElem?_getD, List.getElem?_set_self', h]

theorem page_setPage_ne (w : World) (i j : PageId) (p : PageData) (h : j ≠ i) :
    (w.setPage i p).page j = w.page j := by
  simp [World.page, World.setPage, List.getD_eq_getElem?_getD,
    List.getElem?_set_ne (Ne.symm h)]

theorem length_setPage (w : World) (i : PageId) (p : PageData) :
    (w.setPage i p).pages.length = w.pages.length := by
  simp [World.setPage]

theorem page_append_lt (w : World) (x : PageData) (i : PageId) (h : i < w.pages.length) :
    (World.mk (w.pages ++ [x])).page i = w.page i := by
  simp [World.page, List.getD_eq_getElem?_getD, List.getElem?_append, h]

theorem page_append_last (w : World) (x : PageData) :
    (World.mk (w.pages ++ [x])).page w.pages.length = x := by
  simp [World.page, List.getD_eq_getElem?_getD]

/-- The flag assignment `next_page._no_iter_next = self._no_iter_next` at the
end of `_fetch_page` happens on both cache branches: the freshly fetched
page always carries the fetching page's `_no_iter_next`. -/
theorem fetchPage_noIterNext (F : Url → PageSpec) (w : World) (selfId : PageId)
    (url : Url) (noCache : Bool) (hi : selfId < w.pages.length) :
    ((fetchPage F w selfId url noCache).1.page (fetchPage F w selfId url noCache).2).noIterNext
      = (w.page selfId).noIterNext := by
  have hne : selfId ≠ w.pages.length := Nat.ne_of_lt hi
  have h1 : selfId < w.pages.length + 1 := Nat.lt_succ_of_lt hi
  cases noCache with
  | true =>
    simp [fetchPage, page_setPage_self, page_setPage_ne, page_append_lt, page_append_last,
      length_setPage, hi, hne, h1, Nat.lt_succ_self]
  | false =>
    simp [fetchPage, page_setPage_self, page_setPage_ne, page_append_lt, page_append_last,
      length_setPage, hi, hne, h1, Nat.lt_succ_self]

end CollectionModel

/-! ## Claims about `PaginatedCollection` / `PaginatedIterator` -/

open CollectionModel

/-- C9 counterexample: the cache tests use Python list truthiness, so an
EMPTY cached page is falsy and skipped.  With empty page 1 cached in page
0's `_next`: `next_page` raises `IndexError` when page 0 has no next link,
although a cached adjacent page is present (the claim says it is returned);
and with a next link present it fetches a fresh page (id 2), not the cached
id 1. -/
theorem C9_empty_cached_page_skipped :
    nextPage (fun _ => ⟨[], none, none⟩)
        ⟨[{ items := [1], nextPageUrl := none, previousPageUrl := none,
            next := some 1, previous := none, currentIter := none, noIterNext := true },
          { items := [], nextPageUrl := none, previousPageUrl := none,
            next := none, previous := none, currentIter := none, noIterNext := true }]⟩
        0 false
      = .error () ∧
    ((nextPage (fun _ => ⟨[7], none, none⟩)
          ⟨[{ items := [1], nextPageUrl := some "u".toList, previousPageUrl := none,
              next := some 1, previous := none, currentIter := none, noIterNext := true },
            { items := [], nextPageUrl := none, previousPageUrl := none,
              next := none, previous := none, currentIter := none, noIterNext := true }]⟩
          0 false).toOption.map Prod.snd)
      = some 2 := by
  decide

/-- C9 as amended: `next_page` / `previous_page` consult the adjacency
cache before the link check, under Python list truthiness: a cached
adjacent page whose `__len__` is non-zero is returned even when the page's
own link in that direction is absent; an empty (falsy) cached page is
skipped — when the link is present a page is freshly fetched — and the
`IndexError` is raised exactly when there is no truthy cached page and the
link is absent. -/
theorem C9_truthy_cache_consulted_first (F : Url → PageSpec) (w : World) (i : PageId)
    (nc : Bool) :
    (∀ p, (w.page i).next = some p → pageLen w p ≠ 0 → nextPage F w i nc = .ok (w, p)) ∧
    (∀ p, (w.page i).previous = some p → pageLen w p ≠ 0 →
        previousPage F w i nc = .ok (w, p)) ∧
    (∀ p, (w.page i).next = some p → pageLen w p = 0 → hasNextPage (w.page i) = true →
        nextPage F w i nc
          = .ok (fetchPage F w i ((w.page i).nextPageUrl.getD []) nc)) ∧
    (∀ p, (w.page i).previous = some p → pageLen w p = 0 →
        hasPreviousPage (w.page i) = true →
        previousPage F w i nc
          = .ok (fetchPage F w i ((w.page i).previousPageUrl.getD []) nc)) ∧
    (nextPage F w i nc = .error () ↔
      truthyRef w (w.page i).next = none ∧ hasNextPage (w.page i) = false) ∧
    (previousPage F w i nc = .error () ↔
      truthyRef w (w.page i).previous = none ∧ hasPreviousPage (w.page i) = false) := by
  refine ⟨?_, ?_, ?_, ?_, ?_, ?_⟩
  · intro p hp hlen
    have hpos : 0 < pageLen w p := Nat.pos_of_ne_zero hlen
    simp [nextPage, truthyRef, hp, hpos]
  · intro p hp hlen
    have hpos : 0 < pageLen w p := Nat.pos_of_ne_zero hlen
    simp [previousPage, truthyRef, hp, hpos]
  · intro p hp hlen hu
    simp [nextPage, truthyRef, hp, hlen, hu]
  · intro p hp hlen hu
    simp [previousPage, truthyRef, hp, hlen, hu]
  · cases t : truthyRef w (w.page i).next with
    | some p => simp [nextPage, t]
    | none =>
      by_cases hu : hasNextPage (w.page i) = true
      · simp [nextPage, t, hu]
      · simp only [Bool.not_eq_true] at hu
        simp [nextPage, t, hu]
  · cases t : truthyRef w (w.page i).previous with
    | some p => simp [previousPage, t]
    | none =>
      by_cases hu : hasPreviousPage (w.page i) = true
      · simp [previousPage, t, hu]
      · simp only [Bool.not_eq_true] at hu
        simp [previousPage, t, hu]

/-- Witness for C9 as amended: a non-empty page cached in `_next` is
returned even though the caching page has no next link. -/
theorem C9_truthy_cache_consulted_first_witness :
    nextPage (fun _ => ⟨[], none, none⟩)
        ⟨[{ items := [], nextPageUrl := none, previousPageUrl := none,
            next := some 1, previous := none, currentIter := none, noIterNext := true },
          { items := [3], nextPageUrl := none, previousPageUrl := none,
            next := none, previous := none, currentIter := none, noIterNext := true }]⟩
        0 true
      = .ok (⟨[{ items := [], nextPageUrl := none, previousPageUrl := none,
                 next := some 1, previous := none, currentIter := none, noIterNext := true },
               { items := [3], nextPageUrl := none, previousPageUrl := none,
                 next := none, previous := none, currentIter := none,
                 noIterNext := true }]⟩, 1) :=
  (C9_truthy_cache_consulted_first _ _ 0 true).1 1 (by decide) (by decide)

/-- C10: every page actually fetched through `next_page` or `previous_page`
(cache miss with a link present) has its `_no_iter_next` overwritten with
the fetching page's flag, whatever the `no_cache` argument was. -/
theorem C10_noIterNext_inherited (F : Url → PageSpec) (w : World) (i : PageId) (nc : Bool)
    (hi : i < w.pages.length) :
    (∀ w' p, (w.page i).next = none → nextPage F w i nc = .ok (w', p) →
        (w'.page p).noIterNext = (w.page i).noIterNext) ∧
    (∀ w' p, (w.page i).previous = none → previousPage F w i nc = .ok (w', p) →
        (w'.page p).noIterNext = (w.page i).noIterNext) := by
  constructor
  · intro w' p hn hok
    by_cases hu : hasNextPage (w.page i) = true
    · simp only [nextPage, truthyRef, hn, hu, if_true] at hok
      rw [Except.ok.injEq, Prod.ext_iff] at hok
      have h1 : (fetchPage F w i ((w.page i).nextPageUrl.getD []) nc).1 = w' := hok.1
      have h2 : (fetchPage F w i ((w.page i).nextPageUrl.getD []) nc).2 = p := hok.2
      rw [← h1, ← h2]
      exact fetchPage_noIterNext F w i _ nc hi
    · simp [nextPage, truthyRef, hn, hu] at hok
  · intro w' p hn hok
    by_cases hu : hasPreviousPage (w.page i) = true
    · simp only [previousPage, truthyRef, hn, hu, if_true] at hok
      rw [Except.ok.injEq, Prod.ext_iff] at hok
      have h1 : (fetchPage F w i ((w.page i).previousPageUrl.getD []) nc).1 = w' := hok.1
      have h2 : (fetchPage F w i ((w.page i).previousPageUrl.getD []) nc).2 = p := hok.2
      rw [← h1, ← h2]
      exact fetchPage_noIterNext F w i _ nc hi
    · simp [previousPage, truthyRef, hn, hu] at hok

/-- Witness for C10: fetching the next page (with `no_cache=True`) of a
page whose `_no_iter_next` is `False` produces a page whose flag is also
`False`, although a freshly constructed page defaults to `True`. -/
theorem C10_noIterNext_inherited_witness :
    ((⟨[{ items := [5], nextPageUrl := some "u".toList, previousPageUrl := none,
          next := none, previous := none, currentIter := none, noIterNext := false },
        { items := [6], nextPageUrl := none, previousPageUrl := none,
          next := none, previous := none, currentIter := none,
          noIterNext := false }]⟩ : World).page 1).noIterNext
      = ((⟨[{ items := [5], nextPageUrl := some "u".toList, previousPageUrl := none,
              next := none, previous := none, currentIter := none,
              noIterNext := false }]⟩ : World).page 0).noIterNext :=
  (C10_noIterNext_inherited (fun _ => ⟨[6], none, none⟩)
      ⟨[{ items := [5], nextPageUrl := some "u".toList, previousPageUrl := none,
          next := none, previous := none, currentIter := none, noIterNext := false }]⟩
      0 true (by decide)).1
    ⟨[{ items := [5], nextPageUrl := some "u".toList, previousPageUrl := none,
        next := none, previous := none, currentIter := none, noIterNext := false },
      { items := [6], nextPageUrl := none, previousPageUrl := none,
        next := none, previous := none, currentIter := none, noIterNext := false }]⟩
    1 (by decide) (by decide)

/-- C4, evaluated at the failing input: a page `P2` whose only link is
`previous_page_url = "u1"`.  The first `previous_page(no_cache=False)` call
fetches page 1 but stores it in `P2._next` (because `_fetch_page` always
assigns `self._next`), leaves `P2._previous` as `None`, and therefore a
second `previous_page(no_cache=False)` call fetches again (a fresh page 2)
instead of returning the cached neighbor. -/
theorem C4_previous_page_miscaches :
    ((previousPage
          (fun u => if u = "u1".toList then ⟨[11], some "u2".toList, none⟩
                    else ⟨[], none, none⟩)
          ⟨[{ items := [21], nextPageUrl := none, previousPageUrl := some "u1".toList,
              next := none, previous := none, currentIter := none, noIterNext := true }]⟩
          0 false).toOption.map
        (fun r =>
          ((r.1.page 0).previous, (r.1.page 0).next, r.2,
            (previousPage
                (fun u => if u = "u1".toList then ⟨[11], some "u2".toList, none⟩
                          else ⟨[], none, none⟩)
                r.1 0 false).toOption.map Prod.snd)))
      = some (none, some 1, 1, some 2) := by
  decide

/-- C6: page-level iteration yields the starting page and then repeatedly
the result of `next_page(no_cache=True)`, swallowing the final `IndexError`
(first conjunct: whenever `next_page` raises, iteration ends cleanly right
after the current page); on a concrete chain P1 → P2 → P3 with P3 lacking
a next link it yields exactly the three pages [P1, P2, P3]. -/
theorem C6_page_iterator :
    (∀ (F : Url → PageSpec) (w : World) (s : PageId) (fuel : Nat),
        nextPage F w s true = .error () → iterPages F (fuel + 1) w s = some ([s], w)) ∧
    ((iterPages
          (fun u =>
            if u = "u2".toList then ⟨[22], some "u3".toList, some "u1".toList⟩
            else if u = "u3".toList then ⟨[33], none, some "u2".toList⟩
            else ⟨[], none, none⟩)
          9
          (paginatedIteratorInit
            ⟨[{ items := [11], nextPageUrl := some "u2".toList, previousPageUrl := none,
                next := none, previous := none, currentIter := none, noIterNext := true }]⟩ 0)
          0).map
        (fun r => (r.1, r.1.map (fun i => (r.2.page i).items))))
      = some ([0, 1, 2], [[11], [22], [33]]) := by
  constructor
  · intro F w s fuel herr
    simp [iterPages, herr]
  · decide

/-- Witness for C6: a single page with no next link yields exactly itself. -/
theorem C6_page_iterator_witness :
    iterPages (fun _ => ⟨[], none, none⟩) 1
        ⟨[{ items := [9], nextPageUrl := none, previousPageUrl := none,
            next := none, previous := none, currentIter := none, noIterNext := true }]⟩ 0
      = some ([0],
          ⟨[{ items := [9], nextPageUrl := none, previousPageUrl := none,
              next := none, previous := none, currentIter := none, noIterNext := true }]⟩) :=
  C6_page_iterator.1 _ _ 0 0 (by decide)

/-- C5 counterexample: a collection built with the constructor defaults
(`no_iter_next` not supplied) has `_no_iter_next = True`, so item-level
iteration yields only the current page's items ([1]) and fetches nothing
(the heap still holds a single page), even though a next link exists —
auto-advance is NOT the default. -/
theorem C5_default_suppresses_auto_advance :
    ((initCollection [1] [("Link".toList, "<u2>; rel=\"next\"".toList)] none).toOption.map
        (fun p =>
          (p.noIterNext, hasNextPage p,
            (iterItems
                (fun u =>
                  if u = "u2".toList then ⟨[2], some "u3".toList, none⟩
                  else if u = "u3".toList then ⟨[3], none, none⟩
                  else ⟨[], none, none⟩)
                5 ⟨[p]⟩ 0).map (fun r => (r.1, r.2.pages.length)))))
      = some (true, true, some ([1], 1)) := by
  decide

/-- C5 as amended: `_no_iter_next` defaults to `True` (auto-advance is
opt-in, not the default); when the flag is set, iteration yields exactly
the page's own items; when a collection is constructed with
`no_iter_next=False`, iteration transparently continues across fetched
pages until one has no next link (concrete chain: [1, 2, 3]). -/
theorem C5_auto_advance_opt_in :
    (∀ its hs kw p, initCollection its hs kw = .ok p → p.noIterNext = kw.getD true) ∧
    (∀ (F : Url → PageSpec) (w : World) (i : PageId) (fuel : Nat),
        (w.page i).noIterNext = true →
        iterItems F (fuel + 1) w i = some ((w.page i).items, w)) ∧
    ((initCollection [1] [("Link".toList, "<u2>; rel=\"next\"".toList)]
          (some false)).toOption.map
        (fun p =>
          (iterItems
              (fun u =>
                if u = "u2".toList then ⟨[2], some "u3".toList, none⟩
                else if u = "u3".toList then ⟨[3], none, none⟩
                else ⟨[], none, none⟩)
              9 ⟨[p]⟩ 0).map Prod.fst))
      = some (some [1, 2, 3]) := by
  refine ⟨?_, ?_, ?_⟩
  · intro its hs kw p h
    cases hh : paginationOfHeaders hs with
    | error e => simp [initCollection, hh] at h
    | ok pg =>
      simp only [initCollection, hh] at h
      rw [Except.ok.injEq] at h
      rw [← h]
  · intro F w i fuel hni
    simp [iterItems, hni]
  · decide

/-- Witness for C5 as amended: a page with the flag set yields only its own
items. -/
theorem C5_auto_advance_opt_in_witness :
    iterItems (fun _ => ⟨[], none, none⟩) 1
        ⟨[{ items := [7], nextPageUrl := none, previousPageUrl := none,
            next := none, previous := none, currentIter := none, noIterNext := true }]⟩ 0
      = some ([7],
          ⟨[{ items := [7], nextPageUrl := none, previousPageUrl := none,
              next := none, previous := none, currentIter := none, noIterNext := true }]⟩) :=
  C5_auto_advance_opt_in.2.1 _ _ 0 0 (by decide)

/-- C8 counterexample: the header lookup is not case-insensitive — the
source checks exactly `headers.get("Link") or headers.get("link")`.  A
well-formed value stored under the casing `"LINK"` yields no links, while
the same value under `"Link"` parses. -/
theorem C8_uppercase_link_key_ignored :
    paginationOfHeaders [("LINK".toList, "<u2>; rel=\"next\"".toList)] = .ok [] ∧
    paginationOfHeaders [("Link".toList, "<u2>; rel=\"next\"".toList)]
      = .ok [("next".toList, "u2".toList)] := by
  decide

/-- C8 as amended: pagination links are derived by parsing the
`Link`-style header value found under exactly the key `"Link"` and then
`"link"` (any other key, e.g. another casing, is ignored); absence of both
keys yields no links, not an error. -/
theorem C8_link_header_lookup (headers : List (Str × Str)) :
    (∀ k v rest, headers = (k, v) :: rest → k ≠ "Link".toList → k ≠ "link".toList →
        paginationOfHeaders headers = paginationOfHeaders rest) ∧
    (dictGet headers "Link".toList = none → dictGet headers "link".toList = none →
        paginationOfHeaders headers = .ok []) ∧
    (∀ v, dictGet headers "Link".toList = some v → v ≠ [] →
        paginationOfHeaders headers = parseLinks (pySplit2 ',' ' ' v) []) := by
  refine ⟨?_, ?_, ?_⟩
  · rintro k v rest rfl hk1 hk2
    have g1 : dictGet ((k, v) :: rest) "Link".toList = dictGet rest "Link".toList := by
      unfold dictGet
      rw [List.find?_cons_of_neg]
      simp only [decide_eq_true_eq]
      exact fun hh => hk1 (hh.trans rfl)
    have g2 : dictGet ((k, v) :: rest) "link".toList = dictGet rest "link".toList := by
      unfold dictGet
      rw [List.find?_cons_of_neg]
      simp only [decide_eq_true_eq]
      exact fun hh => hk2 (hh.trans rfl)
    simp only [paginationOfHeaders, g1, g2]
  · intro h1 h2
    simp only [paginationOfHeaders, h1, h2]
  · intro v hv hne
    have hvE : v.isEmpty = false := by
      cases v
      · exact absurd rfl hne
      · rfl
    simp only [paginationOfHeaders, hv, hvE]
    simp
    exact fun h => absurd h hne

/-- Witness for C8 as amended: an empty header mapping yields no links and
no error. -/
theorem C8_link_header_lookup_witness :
    paginationOfHeaders [] = .ok [] :=
  (C8_link_header_lookup []).2.1 rfl rfl

/-- Witness for C7 as amended, at `ApiAccess(["write_orders"])`
whose compressed set is `{"write_orders"}`. -/
theorem C7_roundtrip_witness :
    ∃ S', apiAccessOfString (apiAccessStr ["write_orders".toList]) = .ok S'
      ∧ apiAccessEq S'
          ⟨{"write_orders".toList},
            {some "write_orders".toList, some "read_orders".toList}⟩ = true :=
  C7_roundtrip ["write_orders".toList] _ ["write_orders".toList]
    (by decide) ⟨by decide, by decide⟩ (by decide)
